import Mathlib

/-!
Verification of the Session Replay Engine of the ai-atc-demo frontend
(`src/frontend/src/routes/replay/[id]/+page.svelte`).

The replay page is shallowly embedded here:
  * aircraft records and state snapshots (numbers modelled by `ℚ`);
  * `interpolateAngle` (shortest-path angular interpolation, JS `%`);
  * `currentAircraft` (bracketing-snapshot search and interpolation,
    with JS `Map` insertion-order/last-write semantics made explicit);
  * `timelineEvents` (marker extraction and stable sort by time);
  * the playback clock (`play` / `pause` / `tick` / `seek` /
    `handleKeydown`), with `requestAnimationFrame` scheduling modelled
    by a boolean "a frame is scheduled" flag;
  * `fetchEvents` (session load), with the network outcome as input.
-/

namespace Replay

/-- An aircraft record inside a snapshot.  The source's
`[key: string]: unknown` index signature (fields beyond the typed ones)
is modelled by the `extra` association list. -/
structure Aircraft where
  callsign : String
  position : ℚ × ℚ
  altitude : ℚ
  heading : ℚ
  speed : ℚ
  phase : Option String
  extra : List (String × String)
deriving DecidableEq, Repr

/-- A `state_snapshot` event as the interpolator sees it: a numeric
`game_time` and a possibly missing `aircraft` array (`none` models a
missing/null field, which is falsy in JS; an empty array is `some []`). -/
structure Snapshot where
  game_time : ℚ
  aircraft : Option (List Aircraft)
deriving DecidableEq, Repr

/-- A raw event from the event log.  Only the fields the replay page
reads are modelled; `none` models an absent field. -/
structure Event where
  event_type : Option String
  game_time : Option ℚ
  aircraft : Option (List Aircraft)
  aircraft1 : Option String
  aircraft2 : Option String
  callsign : Option String
  runway : Option String
deriving DecidableEq, Repr

/-- JS `Math.trunc`-style truncation towards zero, as used by the JS `%`
operator. -/
def jsTrunc (x : ℚ) : ℤ :=
  if 0 ≤ x then ⌊x⌋ else ⌈x⌉

/-- The JS remainder operator `x % y` on numbers: `x - y * trunc (x / y)`. -/
def jsMod (x y : ℚ) : ℚ :=
  x - y * (jsTrunc (x / y) : ℚ)

/-- `interpolateAngle(a, b, t)` from the source: wrap the raw delta into
`[-180, 180]` and take the JS-mod-360 of `a + diff * t + 360`. -/
def interpolateAngle (a b t : ℚ) : ℚ :=
  let diff0 := b - a
  let diff1 := if diff0 > 180 then diff0 - 360 else diff0
  let diff2 := if diff1 < -180 then diff1 + 360 else diff1
  jsMod (a + diff2 * t + 360) 360

/-- One interpolated aircraft: the JS object spread `{...beforeAc, ...}`
replacing exactly `altitude`, `heading`, `speed` and `position`. -/
def interpAircraft (t : ℚ) (b a : Aircraft) : Aircraft :=
  { b with
    altitude := b.altitude + (a.altitude - b.altitude) * t
    heading := interpolateAngle b.heading a.heading t
    speed := b.speed + (a.speed - b.speed) * t
    position := (b.position.1 + (a.position.1 - b.position.1) * t,
                 b.position.2 + (a.position.2 - b.position.2) * t) }

/-- `Map.prototype.set` on an association list: overwrite in place when
the key exists (keeping its original position), append otherwise. -/
def mapSet (m : List (String × Aircraft)) (k : String) (v : Aircraft) :
    List (String × Aircraft) :=
  if ∃ q ∈ m, q.1 = k then
    m.map (fun q => if q.1 = k then (k, v) else q)
  else
    m ++ [(k, v)]

/-- `new Map(list.map(a => [a.callsign, a]))`: insert every aircraft
keyed by callsign, in list order. -/
def jsMapOf (l : List Aircraft) : List (String × Aircraft) :=
  l.foldl (fun m a => mapSet m a.callsign a) []

/-- `Map.prototype.get`. -/
def mapGet (m : List (String × Aircraft)) (k : String) : Option Aircraft :=
  (m.find? (fun q => q.1 == k)).map Prod.snd

/-- The interpolation loop of `currentAircraft`: iterate over the
`before` map; interpolate against the matching `after` entry when there
is one, otherwise emit the `before` record unchanged. -/
def currentAircraftInterp (t : ℚ) (bl al : List Aircraft) : List Aircraft :=
  let beforeMap := jsMapOf bl
  let afterMap := jsMapOf al
  beforeMap.map (fun p =>
    match mapGet afterMap p.1 with
    | some afterAc => interpAircraft t p.2 afterAc
    | none => p.2)

/-- The bracketing loop of `currentAircraft`, carrying the positions of
`before` and `after` in the snapshot array so that the JS reference
comparison `before === after` can be modelled as index equality:
for each snapshot, `if (snap.game_time <= time) before = snap;` and
`if (snap.game_time >= time && after.game_time < time) after = snap;`. -/
def bracketGo (time : ℚ) :
    List Snapshot → Nat → Nat × Snapshot → Nat × Snapshot →
    (Nat × Snapshot) × (Nat × Snapshot)
  | [], _, b, a => (b, a)
  | s :: rest, i, b, a =>
      bracketGo time rest (i + 1)
        (if s.game_time ≤ time then (i, s) else b)
        (if time ≤ s.game_time ∧ a.2.game_time < time then (i, s) else a)

/-- The bracketing search of `currentAircraft`, both accumulators
initialised to `snapshots[0]`. -/
def bracketOf (snaps : List Snapshot) (time : ℚ) :
    (Nat × Snapshot) × (Nat × Snapshot) :=
  match snaps with
  | [] => ((0, ⟨0, none⟩), (0, ⟨0, none⟩))
  | s0 :: rest => bracketGo time (s0 :: rest) 0 (0, s0) (0, s0)

/-- `currentAircraft` from the source: empty when there are no
snapshots; otherwise bracket, and either return `before`'s aircraft
verbatim (same object, missing aircraft, or equal times) or interpolate
with fraction `(time - before.game_time) / (after.game_time - before.game_time)`. -/
def currentAircraft (snaps : List Snapshot) (time : ℚ) : List Aircraft :=
  match snaps with
  | [] => []
  | s0 :: rest =>
    let ba := bracketOf (s0 :: rest) time
    let before := ba.1.2
    let after := ba.2.2
    if ba.1.1 = ba.2.1 ∨ before.aircraft = none ∨ after.aircraft = none ∨
        before.game_time = after.game_time then
      before.aircraft.getD []
    else
      let t := (time - before.game_time) / (after.game_time - before.game_time)
      currentAircraftInterp t (before.aircraft.getD []) (after.aircraft.getD [])

/-- The `before` snapshot selected by the bracketing search. -/
def beforeSnap (snaps : List Snapshot) (time : ℚ) : Snapshot :=
  (bracketOf snaps time).1.2

/-- The `after` snapshot selected by the bracketing search. -/
def afterSnap (snaps : List Snapshot) (time : ℚ) : Snapshot :=
  (bracketOf snaps time).2.2

/-- The interpolation fraction used in the interpolating branch. -/
def tFraction (snaps : List Snapshot) (time : ℚ) : ℚ :=
  (time - (beforeSnap snaps time).game_time) /
    ((afterSnap snaps time).game_time - (beforeSnap snaps time).game_time)

/-- A timeline marker. -/
structure Marker where
  time : ℚ
  type : String
  label : String
deriving DecidableEq, Repr

/-- Render a possibly-missing string field the way a JS template literal
renders `undefined`. -/
def optStr (o : Option String) : String :=
  o.getD "undefined"

/-- The marker list of `timelineEvents` before sorting: one marker per
`conflict` event, then one per `ils_clearance` event, in event order. -/
def timelineUnsorted (events : List Event) : List Marker :=
  (events.filter (fun e => e.event_type == some "conflict")).map
    (fun c => { time := c.game_time.getD 0, type := "conflict",
                label := "Conflict: " ++ optStr c.aircraft1 ++ " / " ++ optStr c.aircraft2 }) ++
  (events.filter (fun e => e.event_type == some "ils_clearance")).map
    (fun e => { time := e.game_time.getD 0, type := "ils",
                label := "ILS: " ++ optStr e.callsign ++ " → " ++ optStr e.runway })

/-- The comparator `(a, b) => a.time - b.time` as an ordering test. -/
def markerLE : Marker → Marker → Bool :=
  fun a b => a.time ≤ b.time

/-- `timelineEvents` from the source: build the markers and sort them by
`time` (JS `Array.prototype.sort` with comparator `a.time - b.time` is a
stable sort, modelled by `mergeSort`). -/
def timelineEvents (events : List Event) : List Marker :=
  (timelineUnsorted events).mergeSort markerLE

/-- The outcome of `fetch` + `res.json()` during a session load:
either the parsed `data.events` field (possibly absent), or a thrown
error message. -/
inductive FetchResponse where
  | success (events : Option (List Event))
  | failure (msg : String)
deriving DecidableEq, Repr

/-- The page state that `fetchEvents` mutates. -/
structure PageState where
  events : List Event
  loading : Bool
  error : Option String
deriving DecidableEq, Repr

/-- `fetchEvents` from the source: on success store `data.events || []`
with no error; on a thrown error store the message and reset `events`
to `[]`; either way `loading` ends `false`.  No event is inspected. -/
def fetchEvents (resp : FetchResponse) (_s : PageState) : PageState :=
  match resp with
  | .success d => { events := d.getD [], loading := false, error := none }
  | .failure msg => { events := [], loading := false, error := some msg }

/-- The playback-clock state: `playing`, the virtual cursor
(`currentTime`), the speed multiplier, the wall-clock timestamp of the
last tick (`lastRealTime`, in milliseconds), and whether an animation
frame is currently scheduled (`animationFrame !== null`). -/
structure ClockState where
  playing : Bool
  currentTime : ℚ
  playbackSpeed : ℚ
  lastRealTime : Option ℚ
  animationFrame : Bool
deriving DecidableEq, Repr

/-- `pause()` from the source: stop playing and cancel any scheduled
animation frame. -/
def pause (s : ClockState) : ClockState :=
  { s with playing := false, animationFrame := false }

/-- `tick()` from the source, with the wall clock `now` (milliseconds)
and the derived `maxTime` as inputs: a no-op when not playing; otherwise
advance the cursor by `(now - lastRealTime) / 1000 * playbackSpeed`
clamped to `maxTime`, pausing when the cursor reaches `maxTime`; then
record `lastRealTime = now` and request the next animation frame. -/
def tick (now maxTime : ℚ) (s : ClockState) : ClockState :=
  if s.playing then
    let s1 :=
      match s.lastRealTime with
      | some last =>
        let delta := (now - last) / 1000
        let s2 := { s with
          currentTime := min (s.currentTime + delta * s.playbackSpeed) maxTime }
        if maxTime ≤ s2.currentTime then pause s2 else s2
      | none => s
    { s1 with lastRealTime := some now, animationFrame := true }
  else s

/-- `play()` from the source: set `playing`, record the wall clock, and
run `tick()` immediately. -/
def play (now maxTime : ℚ) (s : ClockState) : ClockState :=
  tick now maxTime { s with playing := true, lastRealTime := some now }

/-- `seek(time)` from the source: clamp into `[0, maxTime]`. -/
def seek (time maxTime : ℚ) (s : ClockState) : ClockState :=
  { s with currentTime := max 0 (min time maxTime) }

/-- The keys `handleKeydown` reacts to. -/
inductive Key where
  | space | left | right | plus | eq | minus | other
deriving DecidableEq, Repr

/-- `handleKeydown` from the source: space toggles play/pause, arrows
seek ∓5 s, `+`/`=` double the speed up to 10, `-` halves it down to
0.5. -/
def handleKeydown (k : Key) (now maxTime : ℚ) (s : ClockState) : ClockState :=
  match k with
  | .space => if s.playing then pause s else play now maxTime s
  | .left => seek (s.currentTime - 5) maxTime s
  | .right => seek (s.currentTime + 5) maxTime s
  | .plus => { s with playbackSpeed := min (s.playbackSpeed * 2) 10 }
  | .eq => { s with playbackSpeed := min (s.playbackSpeed * 2) 10 }
  | .minus => { s with playbackSpeed := max (s.playbackSpeed / 2) (1 / 2) }
  | .other => s

/-- The claim C2's notion of a malformed raw event, written from the
spec's words for comparison with what `fetchEvents` actually does:
`event_type` missing, or `game_time` non-numeric for a kind that
requires it (`session_start`/`session_end` exempt). -/
def specMalformed (e : Event) : Prop :=
  e.event_type = none ∨
    (∃ k, e.event_type = some k ∧
      (k = "state_snapshot" ∨ k = "decision" ∨ k = "conflict" ∨
        k = "ils_clearance" ∨ k = "landing") ∧
      e.game_time = none)

instance (e : Event) : Decidable (specMalformed e) := by
  unfold specMalformed
  infer_instance

-- Concrete inputs used by the scenario claims and counterexamples.

/-- Aircraft AC1 in the earlier snapshot of the C3 scenario. -/
def ac1Before : Aircraft :=
  ⟨"AC1", (0, 0), 1000, 350, 100, none, []⟩

/-- Aircraft AC1 in the later snapshot of the C3 scenario. -/
def ac1After : Aircraft :=
  ⟨"AC1", (10, 10), 2000, 10, 200, none, []⟩

/-- The two-snapshot sequence of the C3 scenario (t = 0 and t = 10). -/
def scenarioSnaps : List Snapshot :=
  [⟨0, some [ac1Before]⟩, ⟨10, some [ac1After]⟩]

/-- A raw event with no `event_type`, for the C2 counterexample. -/
def untypedEvent : Event :=
  ⟨none, some 0, none, none, none, none, none⟩

/-- A previously loaded, well-formed event list, to observe what a
failed reload does to the exposed list. -/
def previousEvents : List Event :=
  [⟨some "landing", some 1, none, none, none, none, none⟩]

/-- Concrete conflict and ILS events for the C6 witness (deliberately
out of time order, with a time tie between a conflict and an ILS
clearance). -/
def c6Events : List Event :=
  [⟨some "ils_clearance", some 7, none, none, none, some "AC2", some "28R"⟩,
   ⟨some "conflict", some 5, none, some "AC1", some "AC2", none, none⟩,
   ⟨some "conflict", some 7, none, some "AC3", some "AC4", none, none⟩]

/-- The projection of the bracketing loop that tracks `before` only
(the `before` update never reads `after`). -/
def beforeGo (time : ℚ) : List Snapshot → Nat → Nat × Snapshot → Nat × Snapshot
  | [], _, b => b
  | s :: rest, i, b =>
      beforeGo time rest (i + 1) (if s.game_time ≤ time then (i, s) else b)

/-- The projection of the bracketing loop that tracks `after` only
(the `after` update reads only `after` itself). -/
def afterGo (time : ℚ) : List Snapshot → Nat → Nat × Snapshot → Nat × Snapshot
  | [], _, a => a
  | s :: rest, i, a =>
      afterGo time rest (i + 1)
        (if time ≤ s.game_time ∧ a.2.game_time < time then (i, s) else a)

/-- The record `currentAircraft` emits for AC1 at `t = 5` in the C3
scenario. -/
def interpolatedAC1 : Aircraft :=
  ⟨"AC1", (5, 5), 1500, 0, 150, none, []⟩

-- ### Arithmetic facts about the JS remainder and angle interpolation

theorem jsMod_nonneg_lt (x : ℚ) (hx : 0 ≤ x) :
    0 ≤ jsMod x 360 ∧ jsMod x 360 < 360 := by
  have hxd : (0 : ℚ) ≤ x / 360 := by positivity
  have h1 : jsMod x 360 = 360 * Int.fract (x / 360) := by
    unfold jsMod jsTrunc
    rw [if_pos hxd, Int.fract]
    field_simp
  have h2 := Int.fract_nonneg (x / 360)
  have h3 := Int.fract_lt_one (x / 360)
  constructor
  · rw [h1]; positivity
  · rw [h1]; linarith

theorem interpolateAngle_bounds (a b t : ℚ) (ha0 : 0 ≤ a) (ha1 : a < 360)
    (hb0 : 0 ≤ b) (hb1 : b < 360) (ht0 : 0 ≤ t) (ht1 : t ≤ 1) :
    0 ≤ interpolateAngle a b t ∧ interpolateAngle a b t < 360 := by
  have key : ∀ d : ℚ, -180 ≤ d → d ≤ 180 → 0 ≤ a + d * t + 360 := by
    intro d hd1 hd2
    nlinarith [mul_nonneg (by linarith : (0 : ℚ) ≤ d + 180) ht0]
  simp only [interpolateAngle]
  apply jsMod_nonneg_lt
  split_ifs with h1 h2 h3 <;> apply key <;> linarith

-- ### The bracketing search decomposed

theorem bracketGo_eq (time : ℚ) :
    ∀ (l : List Snapshot) (i : Nat) (b a : Nat × Snapshot),
      bracketGo time l i b a = (beforeGo time l i b, afterGo time l i a) := by
  intro l
  induction l with
  | nil => intro i b a; rfl
  | cons s rest ih =>
      intro i b a
      simp only [bracketGo, beforeGo, afterGo]
      exact ih _ _ _

theorem beforeGo_append (time : ℚ) (l₁ l₂ : List Snapshot) :
    ∀ (i : Nat) (b : Nat × Snapshot),
      beforeGo time (l₁ ++ l₂) i b =
        beforeGo time l₂ (i + l₁.length) (beforeGo time l₁ i b) := by
  induction l₁ with
  | nil => intro i b; simp [beforeGo]
  | cons s rest ih =>
      intro i b
      rw [List.cons_append]
      simp only [beforeGo]
      rw [ih, List.length_cons]
      have hi : i + 1 + rest.length = i + (rest.length + 1) := by omega
      rw [hi]

theorem afterGo_append (time : ℚ) (l₁ l₂ : List Snapshot) :
    ∀ (i : Nat) (a : Nat × Snapshot),
      afterGo time (l₁ ++ l₂) i a =
        afterGo time l₂ (i + l₁.length) (afterGo time l₁ i a) := by
  induction l₁ with
  | nil => intro i a; simp [afterGo]
  | cons s rest ih =>
      intro i a
      rw [List.cons_append]
      simp only [afterGo]
      rw [ih, List.length_cons]
      have hi : i + 1 + rest.length = i + (rest.length + 1) := by omega
      rw [hi]

theorem beforeGo_no_update (time : ℚ) :
    ∀ (l : List Snapshot), (∀ s ∈ l, ¬ s.game_time ≤ time) →
      ∀ (i : Nat) (b : Nat × Snapshot), beforeGo time l i b = b := by
  intro l
  induction l with
  | nil => intro _ i b; rfl
  | cons s rest ih =>
      intro h i b
      simp only [beforeGo]
      rw [if_neg (h s (List.mem_cons_self s rest))]
      exact ih (fun x hx => h x (List.mem_cons_of_mem s hx)) _ _

theorem afterGo_no_update (time : ℚ) :
    ∀ (l : List Snapshot), (∀ s ∈ l, ¬ time ≤ s.game_time) →
      ∀ (i : Nat) (a : Nat × Snapshot), afterGo time l i a = a := by
  intro l
  induction l with
  | nil => intro _ i a; rfl
  | cons s rest ih =>
      intro h i a
      simp only [afterGo]
      rw [if_neg (fun hc => h s (List.mem_cons_self s rest) hc.1)]
      exact ih (fun x hx => h x (List.mem_cons_of_mem s hx)) _ _

theorem afterGo_frozen (time : ℚ) :
    ∀ (l : List Snapshot) (i : Nat) (a : Nat × Snapshot), ¬ a.2.game_time < time →
      afterGo time l i a = a := by
  intro l
  induction l with
  | nil => intro i a _; rfl
  | cons s rest ih =>
      intro i a h
      simp only [afterGo]
      rw [if_neg (fun hc => h hc.2)]
      exact ih _ _ h

/-- If `snaps` lists some snapshot `s` with everything before it
strictly earlier and everything after it strictly later (i.e. `snaps`
is time-sorted around `s`), then the bracketing search at `s.game_time`
returns `s` itself for both `before` and `after`, at `s`'s position. -/
theorem bracketOf_at_snap (l₁ : List Snapshot) (s : Snapshot) (l₂ : List Snapshot)
    (h₁ : ∀ x ∈ l₁, x.game_time < s.game_time)
    (h₂ : ∀ x ∈ l₂, s.game_time < x.game_time) :
    bracketOf (l₁ ++ s :: l₂) s.game_time = ((l₁.length, s), (l₁.length, s)) := by
  cases l₁ with
  | nil =>
      simp only [List.nil_append, bracketOf, bracketGo_eq, List.length_nil,
        Prod.mk.injEq]
      refine ⟨?_, ?_⟩
      · simp only [beforeGo]
        rw [if_pos (le_refl s.game_time)]
        exact beforeGo_no_update _ _ (fun x hx => not_le.mpr (h₂ x hx)) _ _
      · simp only [afterGo]
        rw [if_neg (fun hc => lt_irrefl _ hc.2)]
        exact afterGo_frozen _ _ _ _ (lt_irrefl _)
  | cons x rest =>
      have hx : x.game_time < s.game_time := h₁ x (List.mem_cons_self x rest)
      have hrest : ∀ y ∈ rest, y.game_time < s.game_time :=
        fun y hy => h₁ y (List.mem_cons_of_mem x hy)
      simp only [List.cons_append, bracketOf, bracketGo_eq, List.length_cons,
        Prod.mk.injEq]
      refine ⟨?_, ?_⟩
      · simp only [beforeGo]
        rw [if_pos (le_of_lt hx), beforeGo_append]
        simp only [beforeGo]
        rw [if_pos (le_refl s.game_time)]
        rw [beforeGo_no_update _ l₂ (fun y hy => not_le.mpr (h₂ y hy))]
        simp [List.length_cons, Nat.add_comm]
      · simp only [afterGo]
        rw [if_neg (fun hc => absurd hc.1 (not_le.mpr hx)), afterGo_append]
        rw [afterGo_no_update _ rest (fun y hy => not_le.mpr (hrest y hy))]
        simp only [afterGo]
        rw [if_pos ⟨le_refl s.game_time, hx⟩]
        rw [afterGo_frozen _ l₂ _ _ (lt_irrefl s.game_time)]
        simp [List.length_cons, Nat.add_comm]

/-- The verbatim branch of `currentAircraft`: whenever the bracket
search yields the same array slot, a missing aircraft field, or equal
game times, the result is `before`'s aircraft list. -/
theorem currentAircraft_verbatim (snaps : List Snapshot) (time : ℚ) (hne : snaps ≠ [])
    (h : (bracketOf snaps time).1.1 = (bracketOf snaps time).2.1 ∨
      (beforeSnap snaps time).aircraft = none ∨ (afterSnap snaps time).aircraft = none ∨
      (beforeSnap snaps time).game_time = (afterSnap snaps time).game_time) :
    currentAircraft snaps time = (beforeSnap snaps time).aircraft.getD [] := by
  obtain ⟨s0, rest, rfl⟩ := List.exists_cons_of_ne_nil hne
  simp only [beforeSnap, afterSnap] at h ⊢
  simp only [currentAircraft]
  rw [if_pos h]

/-- At a snapshot's own game time in a time-sorted sequence,
`currentAircraft` returns that snapshot's aircraft list verbatim. -/
theorem currentAircraft_at_snap (l₁ : List Snapshot) (s : Snapshot) (l₂ : List Snapshot)
    (h₁ : ∀ x ∈ l₁, x.game_time < s.game_time)
    (h₂ : ∀ x ∈ l₂, s.game_time < x.game_time) :
    currentAircraft (l₁ ++ s :: l₂) s.game_time = s.aircraft.getD [] := by
  have hne : l₁ ++ s :: l₂ ≠ [] := by simp
  have hbr := bracketOf_at_snap l₁ s l₂ h₁ h₂
  have h := currentAircraft_verbatim (l₁ ++ s :: l₂) s.game_time hne
    (by rw [hbr]; exact Or.inl rfl)
  rw [h]
  simp [beforeSnap, hbr]

-- ### The interpolating branch

/-- When none of the verbatim conditions hold, `currentAircraft` is the
interpolation of the two bracketed aircraft lists. -/
theorem currentAircraft_interp_eq (snaps : List Snapshot) (time : ℚ) (hne : snaps ≠ [])
    (hidx : (bracketOf snaps time).1.1 ≠ (bracketOf snaps time).2.1)
    (hb : (beforeSnap snaps time).aircraft ≠ none)
    (ha : (afterSnap snaps time).aircraft ≠ none)
    (hgt : (beforeSnap snaps time).game_time ≠ (afterSnap snaps time).game_time) :
    currentAircraft snaps time =
      currentAircraftInterp (tFraction snaps time)
        ((beforeSnap snaps time).aircraft.getD [])
        ((afterSnap snaps time).aircraft.getD []) := by
  obtain ⟨s0, rest, rfl⟩ := List.exists_cons_of_ne_nil hne
  simp only [beforeSnap, afterSnap] at hb ha hgt
  simp only [currentAircraft, beforeSnap, afterSnap, tFraction]
  rw [if_neg]
  intro hc
  rcases hc with h | h | h | h
  · exact hidx h
  · exact hb h
  · exact ha h
  · exact hgt h

theorem mapSet_subset (m : List (String × Aircraft)) (k : String) (v : Aircraft) :
    ∀ p ∈ mapSet m k v, p ∈ m ∨ p = (k, v) := by
  intro p hp
  unfold mapSet at hp
  split at hp
  · obtain ⟨q, hq, hpq⟩ := List.mem_map.mp hp
    by_cases h : q.1 = k
    · right; rw [if_pos h] at hpq; exact hpq.symm
    · left; rw [if_neg h] at hpq; rw [← hpq]; exact hq
  · rcases List.mem_append.mp hp with h | h
    · exact Or.inl h
    · right; simpa using h

/-- Every invariant of the key/value pairs that holds for the inserted
pairs holds for the whole JS map. -/
theorem jsMapOf_inv (P : String × Aircraft → Prop) :
    ∀ (l : List Aircraft) (m : List (String × Aircraft)),
      (∀ p ∈ m, P p) → (∀ a ∈ l, P (a.callsign, a)) →
      ∀ p ∈ l.foldl (fun m a => mapSet m a.callsign a) m, P p := by
  intro l
  induction l with
  | nil => intro m hm _ p hp; exact hm p hp
  | cons a l ih =>
      intro m hm hl p hp
      refine ih (mapSet m a.callsign a) ?_
        (fun b hb => hl b (List.mem_cons_of_mem a hb)) p hp
      intro q hq
      rcases mapSet_subset m a.callsign a q hq with h | h
      · exact hm q h
      · rw [h]; exact hl a (List.mem_cons_self a l)

/-- Every entry of the `before`/`after` JS map is one of the inserted
aircraft, keyed by its own callsign. -/
theorem jsMapOf_mem (l : List Aircraft) :
    ∀ p ∈ jsMapOf l, p.2 ∈ l ∧ p.1 = p.2.callsign := by
  intro p hp
  exact jsMapOf_inv (fun p => p.2 ∈ l ∧ p.1 = p.2.callsign) l []
    (by intro q hq; cases hq) (fun a ha => ⟨ha, rfl⟩) p hp

/-- With pairwise-distinct callsigns (unique within a snapshot, as the
data model requires), the JS map built from a list is exactly the list
of `(callsign, aircraft)` pairs in list order. -/
theorem jsMapOf_eq_map :
    ∀ (l : List Aircraft) (m : List (String × Aircraft)),
      l.Pairwise (fun x y => x.callsign ≠ y.callsign) →
      (∀ a ∈ l, ∀ p ∈ m, p.1 ≠ a.callsign) →
      l.foldl (fun m a => mapSet m a.callsign a) m =
        m ++ l.map (fun a => (a.callsign, a)) := by
  intro l
  induction l with
  | nil => intro m _ _; simp
  | cons a l ih =>
      intro m hpw hfresh
      have hset : mapSet m a.callsign a = m ++ [(a.callsign, a)] := by
        unfold mapSet
        rw [if_neg]
        rintro ⟨q, hq, hqk⟩
        exact hfresh a (List.mem_cons_self a l) q hq hqk
      have hpw' := List.pairwise_cons.mp hpw
      rw [List.foldl_cons, hset, ih (m ++ [(a.callsign, a)]) hpw'.2 ?fresh]
      case fresh =>
        intro b hb p hp
        rcases List.mem_append.mp hp with h | h
        · exact hfresh b (List.mem_cons_of_mem a hb) p h
        · have hpa : p = (a.callsign, a) := by simpa using h
          rw [hpa]
          exact hpw'.1 b hb
      simp [List.append_assoc]

theorem jsMapOf_eq (l : List Aircraft)
    (h : l.Pairwise (fun x y => x.callsign ≠ y.callsign)) :
    jsMapOf l = l.map (fun a => (a.callsign, a)) := by
  have := jsMapOf_eq_map l [] h (by intro a _ p hp; cases hp)
  simpa [jsMapOf] using this

theorem mapGet_eq_some (m : List (String × Aircraft)) (k : String) (v : Aircraft)
    (h : mapGet m k = some v) : (k, v) ∈ m := by
  unfold mapGet at h
  obtain ⟨p, hp, hv⟩ := Option.map_eq_some'.mp h
  have hm := List.mem_of_find?_eq_some hp
  have hk : p.1 = k := by simpa using List.find?_some hp
  rcases p with ⟨k', v'⟩
  cases hk
  cases hv
  exact hm

theorem mapGet_eq_none (m : List (String × Aircraft)) (k : String)
    (h : ∀ p ∈ m, p.1 ≠ k) : mapGet m k = none := by
  unfold mapGet
  rw [List.find?_eq_none.mpr (fun p hp => by simpa using h p hp)]
  rfl

/-- Interpolation replaces only `altitude`, `heading`, `speed` and
`position`; in particular the callsign comes from `before`. -/
theorem interpAircraft_callsign (t : ℚ) (b a : Aircraft) :
    (interpAircraft t b a).callsign = b.callsign := rfl

/-- The interpolated output lists exactly `before`'s callsigns, in
`before`'s order (callsigns unique within the snapshot). -/
theorem currentAircraftInterp_callsigns (t : ℚ) (bl al : List Aircraft)
    (hbu : bl.Pairwise (fun x y => x.callsign ≠ y.callsign)) :
    (currentAircraftInterp t bl al).map (fun a => a.callsign) =
      bl.map (fun a => a.callsign) := by
  unfold currentAircraftInterp
  rw [jsMapOf_eq bl hbu, List.map_map, List.map_map]
  apply List.map_congr_left
  intro a _
  simp only [Function.comp_apply]
  cases h : mapGet (jsMapOf al) a.callsign <;> simp [h, interpAircraft_callsign]

/-- A `before` aircraft whose callsign is absent from `after` is
emitted unchanged (callsigns unique within each snapshot). -/
theorem currentAircraftInterp_absent (t : ℚ) (bl al : List Aircraft)
    (hbu : bl.Pairwise (fun x y => x.callsign ≠ y.callsign))
    (hau : al.Pairwise (fun x y => x.callsign ≠ y.callsign))
    (ac : Aircraft) (hmem : ac ∈ bl)
    (habs : ∀ x ∈ al, x.callsign ≠ ac.callsign) :
    ac ∈ currentAircraftInterp t bl al := by
  unfold currentAircraftInterp
  rw [jsMapOf_eq bl hbu]
  have hget : mapGet (jsMapOf al) ac.callsign = none := by
    rw [jsMapOf_eq al hau]
    apply mapGet_eq_none
    intro p hp
    obtain ⟨x, hx, rfl⟩ := List.mem_map.mp hp
    exact habs x hx
  refine List.mem_map.mpr
    ⟨(ac.callsign, ac), List.mem_map_of_mem (fun a => (a.callsign, a)) hmem, ?_⟩
  simp [hget]

/-- Every record the interpolating branch emits is a `before` record
with (at most) `altitude`, `heading`, `speed` and `position` replaced:
`callsign`, `phase` and all extra fields are carried from `before`. -/
theorem currentAircraftInterp_shape (t : ℚ) (bl al : List Aircraft) :
    ∀ ac ∈ currentAircraftInterp t bl al, ∃ b ∈ bl,
      ac.callsign = b.callsign ∧ ac.phase = b.phase ∧ ac.extra = b.extra ∧
      (ac = b ∨ ∃ a ∈ al, a.callsign = b.callsign ∧ ac = interpAircraft t b a) := by
  intro ac hac
  unfold currentAircraftInterp at hac
  obtain ⟨p, hp, hbody⟩ := List.mem_map.mp hac
  obtain ⟨hmem, hkey⟩ := jsMapOf_mem bl p hp
  refine ⟨p.2, hmem, ?_⟩
  cases hg : mapGet (jsMapOf al) p.1 with
  | none =>
      rw [hg] at hbody
      dsimp only at hbody
      rw [← hbody]
      exact ⟨rfl, rfl, rfl, Or.inl rfl⟩
  | some x =>
      rw [hg] at hbody
      dsimp only at hbody
      have hx := mapGet_eq_some _ _ _ hg
      obtain ⟨hxal, hxkey⟩ := jsMapOf_mem al (p.1, x) hx
      rw [← hbody]
      exact ⟨rfl, rfl, rfl, Or.inr ⟨x, hxal, by rw [← hxkey, hkey], rfl⟩⟩

-- ### Stable sorting of the timeline markers

theorem markerLE_trans : ∀ a b c : Marker,
    markerLE a b = true → markerLE b c = true → markerLE a c = true := by
  intro a b c hab hbc
  simp only [markerLE, decide_eq_true_eq] at *
  exact le_trans hab hbc

theorem markerLE_total : ∀ a b : Marker, markerLE a b || markerLE b a := by
  intro a b
  simp only [markerLE, Bool.or_eq_true, decide_eq_true_eq]
  exact le_total a.time b.time

theorem pairwise_filter_of (p : Marker → Bool) (R : Marker → Marker → Prop)
    (h : ∀ a b, p a = true → p b = true → R a b) :
    ∀ l : List Marker, (l.filter p).Pairwise R := by
  intro l
  induction l with
  | nil => simp
  | cons x xs ih =>
      by_cases hx : p x = true
      · rw [List.filter_cons_of_pos hx]
        exact List.Pairwise.cons (fun b hb => h x b hx (List.of_mem_filter hb)) ih
      · rw [List.filter_cons_of_neg (by simpa using hx)]
        exact ih

/-- The sorted marker list is ascending in `time`. -/
theorem timelineEvents_sorted (events : List Event) :
    (timelineEvents events).Sorted (fun a b : Marker => a.time ≤ b.time) := by
  unfold timelineEvents
  have h := List.sorted_mergeSort markerLE_trans markerLE_total (timelineUnsorted events)
  exact h.imp (fun hab => by simpa [markerLE] using hab)

/-- Stability of the marker sort: the equal-time markers appear in
exactly their pre-sort (conflicts before ILS clearances) order. -/
theorem timelineEvents_filter_time (events : List Event) (t : ℚ) :
    (timelineEvents events).filter (fun m => m.time == t) =
      (timelineUnsorted events).filter (fun m => m.time == t) := by
  unfold timelineEvents
  set l := timelineUnsorted events
  set p : Marker → Bool := fun m => m.time == t with hp
  have hpair : (l.filter p).Pairwise (fun a b => markerLE a b = true) := by
    apply pairwise_filter_of
    intro a b ha hb
    have ha' : a.time = t := by simpa [hp] using ha
    have hb' : b.time = t := by simpa [hp] using hb
    simp [markerLE, ha', hb']
  have hsub : List.Sublist (l.filter p) (l.mergeSort markerLE) :=
    List.sublist_mergeSort markerLE_trans markerLE_total hpair (List.filter_sublist l)
  have hperm : List.Perm ((l.mergeSort markerLE).filter p) (l.filter p) :=
    (List.mergeSort_perm l markerLE).filter p
  have hself : (l.filter p).filter p = l.filter p :=
    List.filter_eq_self.mpr (fun a ha => List.of_mem_filter ha)
  have hsub2 : List.Sublist (l.filter p) ((l.mergeSort markerLE).filter p) := by
    have h2 := hsub.filter p
    rwa [hself] at h2
  exact (hsub2.eq_of_length hperm.length_eq.symm).symm

-- ### The bracketing search at a snapshot time of a non-strictly sorted log

theorem beforeGo_inv (time : ℚ) :
    ∀ (l : List Snapshot), (∀ x ∈ l, x.game_time ≤ time → x.game_time = time) →
      ∀ (i : Nat) (b : Nat × Snapshot), b.2.game_time = time →
        (beforeGo time l i b).2.game_time = time := by
  intro l
  induction l with
  | nil => intro _ i b hb; exact hb
  | cons x rest ih =>
      intro h i b hb
      simp only [beforeGo]
      by_cases hx : x.game_time ≤ time
      · rw [if_pos hx]
        exact ih (fun y hy => h y (List.mem_cons_of_mem x hy)) _ _
          (h x (List.mem_cons_self x rest) hx)
      · rw [if_neg hx]
        exact ih (fun y hy => h y (List.mem_cons_of_mem x hy)) _ _ hb

theorem afterGo_inv (time : ℚ) :
    ∀ (l : List Snapshot), (∀ x ∈ l, time ≤ x.game_time → x.game_time = time) →
      ∀ (i : Nat) (a : Nat × Snapshot),
        (a.2.game_time = time ∨ a.2.game_time < time) →
        ((afterGo time l i a).2.game_time = time ∨
          (afterGo time l i a).2.game_time < time) := by
  intro l
  induction l with
  | nil => intro _ i a ha; exact ha
  | cons x rest ih =>
      intro h i a ha
      simp only [afterGo]
      by_cases hc : time ≤ x.game_time ∧ a.2.game_time < time
      · rw [if_pos hc]
        exact ih (fun y hy => h y (List.mem_cons_of_mem x hy)) _ _
          (Or.inl (h x (List.mem_cons_self x rest) hc.1))
      · rw [if_neg hc]
        exact ih (fun y hy => h y (List.mem_cons_of_mem x hy)) _ _ ha

/-- In a snapshot log that is (non-strictly) time-sorted around `s`,
both bracketing snapshots chosen at `s.game_time` carry game time
`s.game_time`. -/
theorem bracket_at_snap_sorted (l₁ : List Snapshot) (s : Snapshot) (l₂ : List Snapshot)
    (h₁ : ∀ x ∈ l₁, x.game_time ≤ s.game_time)
    (h₂ : ∀ x ∈ l₂, s.game_time ≤ x.game_time) :
    (beforeSnap (l₁ ++ s :: l₂) s.game_time).game_time = s.game_time ∧
    (afterSnap (l₁ ++ s :: l₂) s.game_time).game_time = s.game_time := by
  have hl₂ : ∀ x ∈ l₂, x.game_time ≤ s.game_time → x.game_time = s.game_time :=
    fun x hx hle => le_antisymm hle (h₂ x hx)
  cases l₁ with
  | nil =>
      simp only [List.nil_append, beforeSnap, afterSnap, bracketOf, bracketGo_eq]
      constructor
      · simp only [beforeGo]
        rw [if_pos (le_refl s.game_time)]
        exact beforeGo_inv _ l₂ hl₂ _ _ rfl
      · simp only [afterGo]
        rw [if_neg (fun hc => lt_irrefl _ hc.2)]
        rw [afterGo_frozen _ l₂ _ _ (lt_irrefl s.game_time)]
  | cons x rest =>
      have hx : x.game_time ≤ s.game_time := h₁ x (List.mem_cons_self x rest)
      have hrest : ∀ y ∈ rest, y.game_time ≤ s.game_time :=
        fun y hy => h₁ y (List.mem_cons_of_mem x hy)
      have hrest' : ∀ y ∈ rest, s.game_time ≤ y.game_time → y.game_time = s.game_time :=
        fun y hy hge => le_antisymm (hrest y hy) hge
      simp only [List.cons_append, beforeSnap, afterSnap, bracketOf, bracketGo_eq]
      constructor
      · simp only [beforeGo]
        rw [if_pos hx, beforeGo_append]
        simp only [beforeGo]
        rw [if_pos (le_refl s.game_time)]
        exact beforeGo_inv _ l₂ hl₂ _ _ rfl
      · simp only [afterGo]
        by_cases hx0 : s.game_time ≤ x.game_time
        · have hxeq : x.game_time = s.game_time := le_antisymm hx hx0
          rw [if_neg (fun hc => absurd hxeq (ne_of_lt hc.2))]
          rw [afterGo_frozen _ _ _ _ (fun hlt => absurd hxeq (ne_of_lt hlt))]
          exact hxeq
        · rw [if_neg (fun hc => hx0 hc.1), afterGo_append]
          have ha₁ := afterGo_inv s.game_time rest hrest' 1 (0, x)
            (Or.inr (lt_of_not_le hx0))
          rcases ha₁ with heq | hlt
          · simp only [afterGo]
            rw [if_neg (fun hc => absurd heq (ne_of_lt hc.2))]
            rw [afterGo_frozen _ l₂ _ _ (fun hc => absurd heq (ne_of_lt hc))]
            exact heq
          · simp only [afterGo]
            rw [if_pos ⟨le_refl s.game_time, hlt⟩]
            rw [afterGo_frozen _ l₂ _ _ (lt_irrefl s.game_time)]

/-- At a snapshot's game time in a (non-strictly) time-sorted log, the
verbatim branch is taken: the output is the selected `before`'s
aircraft list, and that `before` has the queried game time. -/
theorem currentAircraft_at_snap_sorted (l₁ : List Snapshot) (s : Snapshot) (l₂ : List Snapshot)
    (h₁ : ∀ x ∈ l₁, x.game_time ≤ s.game_time)
    (h₂ : ∀ x ∈ l₂, s.game_time ≤ x.game_time) :
    currentAircraft (l₁ ++ s :: l₂) s.game_time =
      (beforeSnap (l₁ ++ s :: l₂) s.game_time).aircraft.getD [] ∧
    (beforeSnap (l₁ ++ s :: l₂) s.game_time).game_time = s.game_time := by
  obtain ⟨hbgt, hagt⟩ := bracket_at_snap_sorted l₁ s l₂ h₁ h₂
  exact ⟨currentAircraft_verbatim _ _ (by simp)
    (Or.inr (Or.inr (Or.inr (hbgt.trans hagt.symm)))), hbgt⟩

-- ### The claims

/-- C1: the claim states that for a time-sorted snapshot sequence,
`after` defaults to `before` itself when no snapshot has
`game_time ≥ time`, so that for every time at or past the last
snapshot's game time (e.g. cursor = max_time fixed by a later
non-snapshot event) `state_at` returns the last snapshot's aircraft
list verbatim.  The code's default for `after` is `snapshots[0]`
instead: on the two-snapshot scenario log (altitudes 1000 at t=0 and
2000 at t=10) queried at time 20, it interpolates between the last and
the FIRST snapshot with fraction t = -1 and reports altitude 3000, not
the last snapshot's list `[ac1After]` (altitude 2000). -/
theorem c1_cursor_past_last_snapshot_extrapolates :
    (currentAircraft scenarioSnaps 20).map (fun a => a.altitude) = [3000] ∧
    [ac1After].map (fun a => a.altitude) = [2000] ∧
    currentAircraft scenarioSnaps 20 ≠ [ac1After] := by
  refine ⟨?_, by norm_num [ac1After], ?_⟩ <;>
    norm_num [currentAircraft, bracketOf, bracketGo, currentAircraftInterp, jsMapOf,
      mapSet, mapGet, interpAircraft, interpolateAngle, jsMod, jsTrunc, scenarioSnaps,
      ac1Before, ac1After, List.find?, List.foldl, Option.some_ne_none, ne_eq,
      Aircraft.mk.injEq]

/-- C2 counterexample: the claim states that `load` fails with a
`MalformedEventError` whenever an event lacks `event_type` (or has a
non-numeric `game_time` where required), atomically, leaving the
previously exposed list unchanged.  The code never inspects events:
loading a list containing an event with no `event_type` succeeds with
no error and exposes it; moreover a failed fetch resets the exposed
list to `[]` instead of leaving the previous list unchanged. -/
theorem c2_load_accepts_malformed_events :
    specMalformed untypedEvent ∧
    (fetchEvents (.success (some [untypedEvent])) ⟨previousEvents, false, none⟩).error
      = none ∧
    (fetchEvents (.success (some [untypedEvent])) ⟨previousEvents, false, none⟩).events
      = [untypedEvent] ∧
    (fetchEvents (.failure "network error") ⟨previousEvents, false, none⟩).events
      ≠ previousEvents := by
  refine ⟨Or.inl rfl, rfl, rfl, ?_⟩
  simp [fetchEvents, previousEvents]

/-- C2 amended: `load` performs no per-event validation and cannot fail
on malformed events: any successfully fetched payload is exposed
verbatim (`data.events || []`) with no error, and on a fetch/parse
failure the error message is surfaced while the exposed event list is
reset to `[]` (not preserved). -/
theorem c2_load_never_validates :
    (∀ (d : Option (List Event)) (s : PageState),
      fetchEvents (.success d) s = ⟨d.getD [], false, none⟩) ∧
    (∀ (msg : String) (s : PageState),
      fetchEvents (.failure msg) s = ⟨[], false, some msg⟩) :=
  ⟨fun _ _ => rfl, fun _ _ => rfl⟩

/-- C3: heading interpolation wraps the delta into `[-180, 180]` and
returns `(a + d·t + 360) mod 360`, which is always in `[0, 360)` for
headings in `[0, 360)` and `t ∈ [0, 1]`; in particular
`interpolateAngle 350 10 0.5 = 0`, and on the scenario snapshots
(alt 1000/hdg 350 at t=0, alt 2000/hdg 10 at t=10) `state_at 5` yields
altitude 1500 and heading 0. -/
theorem c3_heading_interpolation :
    (∀ a b t : ℚ, 0 ≤ a → a < 360 → 0 ≤ b → b < 360 → 0 ≤ t → t ≤ 1 →
      0 ≤ interpolateAngle a b t ∧ interpolateAngle a b t < 360) ∧
    interpolateAngle 350 10 (1 / 2) = 0 ∧
    (currentAircraft scenarioSnaps 5).map (fun a => (a.altitude, a.heading))
      = [(1500, 0)] := by
  refine ⟨interpolateAngle_bounds, ?_, ?_⟩
  · norm_num [interpolateAngle, jsMod, jsTrunc]
  · norm_num [currentAircraft, bracketOf, bracketGo, currentAircraftInterp, jsMapOf,
      mapSet, mapGet, interpAircraft, interpolateAngle, jsMod, jsTrunc, scenarioSnaps,
      ac1Before, ac1After, List.find?, List.foldl, Option.some_ne_none, ne_eq]

theorem c3_heading_interpolation_witness :
    0 ≤ interpolateAngle 10 20 (1 / 2) ∧ interpolateAngle 10 20 (1 / 2) < 360 :=
  c3_heading_interpolation.1 10 20 (1 / 2) (by norm_num) (by norm_num) (by norm_num)
    (by norm_num) (by norm_num) (by norm_num)

/-- C4: in the interpolating case (distinct bracketing slots, distinct
game times, present non-empty aircraft lists, unique callsigns), the
output's callsign sequence equals `before`'s (same multiset and order);
a `before` aircraft with no counterpart in `after` is emitted
unchanged; and callsigns present only in `after` are not emitted. -/
theorem c4_interp_preserves_before_callsigns
    (snaps : List Snapshot) (time : ℚ) (bl al : List Aircraft)
    (hne : snaps ≠ [])
    (hidx : (bracketOf snaps time).1.1 ≠ (bracketOf snaps time).2.1)
    (hb : (beforeSnap snaps time).aircraft = some bl)
    (ha : (afterSnap snaps time).aircraft = some al)
    (hblne : bl ≠ []) (halne : al ≠ [])
    (hgt : (beforeSnap snaps time).game_time ≠ (afterSnap snaps time).game_time)
    (hbu : bl.Pairwise (fun x y => x.callsign ≠ y.callsign))
    (hau : al.Pairwise (fun x y => x.callsign ≠ y.callsign)) :
    (currentAircraft snaps time).map (fun a => a.callsign)
      = bl.map (fun a => a.callsign) ∧
    (∀ ac ∈ bl, (∀ x ∈ al, x.callsign ≠ ac.callsign) →
      ac ∈ currentAircraft snaps time) ∧
    (∀ x ∈ al, x.callsign ∉ bl.map (fun a => a.callsign) →
      x.callsign ∉ (currentAircraft snaps time).map (fun a => a.callsign)) := by
  have heq := currentAircraft_interp_eq snaps time hne hidx
    (by simp [hb]) (by simp [ha]) hgt
  rw [heq, hb, ha]
  simp only [Option.getD_some]
  refine ⟨currentAircraftInterp_callsigns _ bl al hbu, ?_, ?_⟩
  · intro ac hac habs
    exact currentAircraftInterp_absent _ bl al hbu hau ac hac habs
  · intro x _ hnotin
    rw [currentAircraftInterp_callsigns _ bl al hbu]
    exact hnotin

theorem c4_interp_preserves_before_callsigns_witness :
    (currentAircraft scenarioSnaps 5).map (fun a => a.callsign) = ["AC1"] :=
  (c4_interp_preserves_before_callsigns scenarioSnaps 5 [ac1Before] [ac1After]
    (by simp [scenarioSnaps])
    (by norm_num [bracketOf, bracketGo, scenarioSnaps])
    (by norm_num [beforeSnap, bracketOf, bracketGo, scenarioSnaps])
    (by norm_num [afterSnap, bracketOf, bracketGo, scenarioSnaps])
    (by simp) (by simp)
    (by norm_num [beforeSnap, afterSnap, bracketOf, bracketGo, scenarioSnaps])
    (by simp) (by simp)).1

/-- C5: at a snapshot's own game time in a time-sorted log,
`state_at` returns the selected `before`'s aircraft list verbatim (and
that `before` carries exactly the queried game time; with strictly
increasing snapshot times it is the queried snapshot itself); more
generally, whenever `before` and `after` are the same array slot, or
either lacks an aircraft field, or their game times are equal, the
result is `before`'s aircraft list verbatim. -/
theorem c5_state_at_snapshot_time :
    (∀ (snaps : List Snapshot) (time : ℚ), snaps ≠ [] →
      ((bracketOf snaps time).1.1 = (bracketOf snaps time).2.1 ∨
        (beforeSnap snaps time).aircraft = none ∨
        (afterSnap snaps time).aircraft = none ∨
        (beforeSnap snaps time).game_time = (afterSnap snaps time).game_time) →
      currentAircraft snaps time = (beforeSnap snaps time).aircraft.getD []) ∧
    (∀ (l₁ : List Snapshot) (s : Snapshot) (l₂ : List Snapshot),
      (∀ x ∈ l₁, x.game_time ≤ s.game_time) →
      (∀ x ∈ l₂, s.game_time ≤ x.game_time) →
      currentAircraft (l₁ ++ s :: l₂) s.game_time =
        (beforeSnap (l₁ ++ s :: l₂) s.game_time).aircraft.getD [] ∧
      (beforeSnap (l₁ ++ s :: l₂) s.game_time).game_time = s.game_time) ∧
    (∀ (l₁ : List Snapshot) (s : Snapshot) (l₂ : List Snapshot),
      (∀ x ∈ l₁, x.game_time < s.game_time) →
      (∀ x ∈ l₂, s.game_time < x.game_time) →
      currentAircraft (l₁ ++ s :: l₂) s.game_time = s.aircraft.getD []) :=
  ⟨currentAircraft_verbatim, currentAircraft_at_snap_sorted, currentAircraft_at_snap⟩

theorem c5_state_at_snapshot_time_witness :
    currentAircraft scenarioSnaps 10 = [ac1After] :=
  c5_state_at_snapshot_time.2.2 [⟨0, some [ac1Before]⟩] ⟨10, some [ac1After]⟩ []
    (by intro x hx; rw [List.mem_singleton] at hx; subst hx; norm_num)
    (by intro x hx; cases hx)

/-- C6: `markers()` is ascending in time for every input order of
conflict/ILS events (with numeric game times), and equal-time markers
keep their deterministic pre-sort order: all conflicts enumerated
before all ILS clearances, each group in input order (stable sort). -/
theorem c6_markers_sorted_stable (events : List Event)
    (hnum : ∀ e ∈ events,
      (e.event_type = some "conflict" ∨ e.event_type = some "ils_clearance") →
      e.game_time ≠ none) :
    (timelineEvents events).Sorted (fun a b : Marker => a.time ≤ b.time) ∧
    ∀ t : ℚ, (timelineEvents events).filter (fun m => m.time == t) =
      (timelineUnsorted events).filter (fun m => m.time == t) :=
  ⟨timelineEvents_sorted events, fun t => timelineEvents_filter_time events t⟩

theorem c6_markers_sorted_stable_witness :
    (timelineEvents c6Events).filter (fun m => m.time == 7) =
      (timelineUnsorted c6Events).filter (fun m => m.time == 7) :=
  (c6_markers_sorted_stable c6Events
    (by intro e he h; fin_cases he <;> simp [c6Events])).2 7

/-- C7 counterexample: the claim states that when the cursor reaches
`max_time` the clock stops and does not reschedule another tick.  On a
running clock at speed 1 with cursor 0, `max_time = 1` and 2 s of real
elapsed time, the tick clamps the cursor to 1 and stops — but it still
requests another animation frame (the source calls
`requestAnimationFrame` unconditionally after the pause). -/
theorem c7_tick_at_max_reschedules :
    (tick 2000 1 ⟨true, 0, 1, some 0, false⟩).currentTime = 1 ∧
    (tick 2000 1 ⟨true, 0, 1, some 0, false⟩).playing = false ∧
    (tick 2000 1 ⟨true, 0, 1, some 0, false⟩).animationFrame = true := by
  norm_num [tick, pause]

theorem tick_run (now maxTime last : ℚ) (s : ClockState)
    (hp : s.playing = true) (hl : s.lastRealTime = some last) :
    tick now maxTime s =
      if maxTime ≤ min (s.currentTime + (now - last) / 1000 * s.playbackSpeed) maxTime
      then ⟨false, min (s.currentTime + (now - last) / 1000 * s.playbackSpeed) maxTime,
        s.playbackSpeed, some now, true⟩
      else ⟨true, min (s.currentTime + (now - last) / 1000 * s.playbackSpeed) maxTime,
        s.playbackSpeed, some now, true⟩ := by
  simp only [tick, hp, hl, if_true]
  split_ifs with h <;> simp [pause, hp]

/-- C7 amended: a tick on a running clock with a recorded last wall
time sets the cursor to `min (cursor + elapsed·speed, max_time)`,
records `last_tick_wallclock = now`, stops exactly when the cursor
reaches `max_time` — but it always requests one further animation
frame, even when it stops (that stray frame is then a no-op).  At
speed 2 with cursor 0 and 1.0 s elapsed the cursor becomes
`min 2 max_time`. -/
theorem c7_tick_advances_clamped :
    (∀ (now maxTime last : ℚ) (s : ClockState),
      s.playing = true → s.lastRealTime = some last →
      (tick now maxTime s).currentTime =
        min (s.currentTime + (now - last) / 1000 * s.playbackSpeed) maxTime ∧
      (tick now maxTime s).lastRealTime = some now ∧
      (tick now maxTime s).animationFrame = true ∧
      (maxTime ≤ (tick now maxTime s).currentTime →
        (tick now maxTime s).playing = false) ∧
      ((tick now maxTime s).currentTime < maxTime →
        (tick now maxTime s).playing = true)) ∧
    (∀ maxTime : ℚ,
      (tick 1000 maxTime ⟨true, 0, 2, some 0, true⟩).currentTime = min 2 maxTime) := by
  constructor
  · intro now maxTime last s hp hl
    rw [tick_run now maxTime last s hp hl]
    by_cases hm : maxTime ≤ min (s.currentTime + (now - last) / 1000 * s.playbackSpeed) maxTime
    · rw [if_pos hm]
      exact ⟨rfl, rfl, rfl, fun _ => rfl, fun hlt => (not_le.mpr hlt hm).elim⟩
    · rw [if_neg hm]
      exact ⟨rfl, rfl, rfl, fun hle => (hm hle).elim, fun _ => rfl⟩
  · intro maxTime
    rw [tick_run 1000 maxTime 0 ⟨true, 0, 2, some 0, true⟩ rfl rfl]
    split_ifs <;> norm_num

theorem c7_tick_advances_clamped_witness :
    (tick 1000 10 ⟨true, 0, 2, some 0, true⟩).lastRealTime = some 1000 :=
  (c7_tick_advances_clamped.1 1000 10 0 ⟨true, 0, 2, some 0, true⟩ rfl rfl).2.1

/-- C8: out-of-range seeks are clamped to the nearest bound of
`[0, max_time]` without touching `playing`, and speed changes are
clamped (`+`/`=` to `min (speed·2) 10`, `-` to `max (speed/2) 0.5`);
no request is rejected. -/
theorem c8_seek_and_speed_clamped :
    (∀ (t maxTime : ℚ) (s : ClockState), 0 ≤ maxTime →
      (t < 0 → (seek t maxTime s).currentTime = 0) ∧
      (maxTime < t → (seek t maxTime s).currentTime = maxTime) ∧
      (seek t maxTime s).playing = s.playing) ∧
    (∀ (now maxTime : ℚ) (s : ClockState),
      (handleKeydown .plus now maxTime s).playbackSpeed
        = min (s.playbackSpeed * 2) 10 ∧
      (handleKeydown .eq now maxTime s).playbackSpeed
        = min (s.playbackSpeed * 2) 10 ∧
      (handleKeydown .minus now maxTime s).playbackSpeed
        = max (s.playbackSpeed / 2) (1 / 2) ∧
      (handleKeydown .plus now maxTime s).playbackSpeed ≤ 10 ∧
      (1 : ℚ) / 2 ≤ (handleKeydown .minus now maxTime s).playbackSpeed) := by
  constructor
  · intro t maxTime s h0
    refine ⟨?_, ?_, rfl⟩
    · intro ht
      show max 0 (min t maxTime) = 0
      rw [min_eq_left (le_trans (le_of_lt ht) h0), max_eq_left (le_of_lt ht)]
    · intro ht
      show max 0 (min t maxTime) = maxTime
      rw [min_eq_right (le_of_lt ht), max_eq_right h0]
  · intro now maxTime s
    exact ⟨rfl, rfl, rfl, min_le_right _ _, le_max_right _ _⟩

theorem c8_seek_and_speed_clamped_witness :
    (seek (-1) 10 ⟨false, 3, 1, none, false⟩).playing = false :=
  (c8_seek_and_speed_clamped.1 (-1) 10 ⟨false, 3, 1, none, false⟩ (by norm_num)).2.2

/-- C9: a tick that fires while `playing = false` (e.g. a stray
in-flight frame after `pause()`) is a complete no-op: the cursor,
`last_tick_wallclock`, `playing` and the scheduled-frame flag are all
unchanged and nothing new is scheduled. -/
theorem c9_stray_tick_is_noop (now maxTime : ℚ) (s : ClockState)
    (h : s.playing = false) :
    tick now maxTime s = s ∧
    (tick now maxTime s).currentTime = s.currentTime ∧
    (tick now maxTime s).lastRealTime = s.lastRealTime ∧
    (tick now maxTime s).animationFrame = s.animationFrame := by
  have he : tick now maxTime s = s := by simp [tick, h]
  exact ⟨he, by rw [he], by rw [he], by rw [he]⟩

theorem c9_stray_tick_is_noop_witness :
    tick 500 10 ⟨false, 3, 1, some 2, true⟩ = ⟨false, 3, 1, some 2, true⟩ :=
  (c9_stray_tick_is_noop 500 10 ⟨false, 3, 1, some 2, true⟩ rfl).1

/-- C10: in the interpolating case every emitted record is a `before`
record with only `altitude`, `heading`, `speed` and `position`
replaced; `callsign`, `phase` and all extra fields are carried from
`before`, never taken from `after` and never dropped. -/
theorem c10_interp_frame_effect
    (snaps : List Snapshot) (time : ℚ) (bl al : List Aircraft)
    (hne : snaps ≠ [])
    (hidx : (bracketOf snaps time).1.1 ≠ (bracketOf snaps time).2.1)
    (hb : (beforeSnap snaps time).aircraft = some bl)
    (ha : (afterSnap snaps time).aircraft = some al)
    (hgt : (beforeSnap snaps time).game_time ≠ (afterSnap snaps time).game_time) :
    ∀ ac ∈ currentAircraft snaps time, ∃ b ∈ bl,
      ac.callsign = b.callsign ∧ ac.phase = b.phase ∧ ac.extra = b.extra ∧
      (ac = b ∨ ∃ a ∈ al, a.callsign = b.callsign ∧
        ac = interpAircraft (tFraction snaps time) b a) := by
  have heq := currentAircraft_interp_eq snaps time hne hidx
    (by simp [hb]) (by simp [ha]) hgt
  rw [heq, hb, ha]
  simp only [Option.getD_some]
  exact currentAircraftInterp_shape _ bl al

theorem c10_interp_frame_effect_witness :
    ∃ b ∈ [ac1Before], interpolatedAC1.callsign = b.callsign ∧
      interpolatedAC1.phase = b.phase ∧ interpolatedAC1.extra = b.extra ∧
      (interpolatedAC1 = b ∨ ∃ a ∈ [ac1After], a.callsign = b.callsign ∧
        interpolatedAC1 = interpAircraft (tFraction scenarioSnaps 5) b a) :=
  c10_interp_frame_effect scenarioSnaps 5 [ac1Before] [ac1After]
    (by simp [scenarioSnaps])
    (by norm_num [bracketOf, bracketGo, scenarioSnaps])
    (by norm_num [beforeSnap, bracketOf, bracketGo, scenarioSnaps])
    (by norm_num [afterSnap, bracketOf, bracketGo, scenarioSnaps])
    (by norm_num [beforeSnap, afterSnap, bracketOf, bracketGo, scenarioSnaps])
    interpolatedAC1
    (by norm_num [currentAircraft, bracketOf, bracketGo, currentAircraftInterp, jsMapOf,
      mapSet, mapGet, interpAircraft, interpolateAngle, jsMod, jsTrunc, scenarioSnaps,
      ac1Before, ac1After, interpolatedAC1, List.find?, List.foldl, Option.some_ne_none,
      ne_eq])

end Replay
